import Mathlib

/-!
# Verification of the biomarker knowledge-graph pipeline

A shallow embedding, in Lean 4, of the entity-resolution / graph-assembly
pipeline and of the query engine of the `neural-network-search` repository
(`src/backend/`).  Python/Cypher string primitives (`str.lower`, `str.strip`,
`str.split`, `int(...)`, Cypher `toLower`/`CONTAINS`) are modelled by
executable character-list functions so that every definition evaluates
inside the kernel.  The graph store (Neo4j) is modelled as explicit lists of
nodes and relationships; each Cypher statement of the source becomes a pure
state-transforming function.
-/

/-! ## String primitives (ASCII model of Python / Cypher string operations) -/

/-- ASCII lower-casing of one character (model of `str.lower` / `toLower`
on the ASCII data handled by the pipeline). -/
def lowerChar (c : Char) : Char :=
  if 65 ≤ c.toNat ∧ c.toNat ≤ 90 then Char.ofNat (c.toNat + 32) else c

/-- Lower-case a string, character by character. -/
def lowerStr (s : String) : String := ⟨s.data.map lowerChar⟩

/-- ASCII whitespace test (model of the characters `str.strip` removes). -/
def isSpaceChar (c : Char) : Bool :=
  c = ' ' || c = '\t' || c = '\n' || c = '\r'

/-- Remove leading and trailing whitespace from a character list. -/
def trimChars (l : List Char) : List Char :=
  ((l.dropWhile isSpaceChar).reverse.dropWhile isSpaceChar).reverse

/-- Model of Python `str.strip()`. -/
def stripStr (s : String) : String := ⟨trimChars s.data⟩

/-- First index at which `pat` occurs inside `hay` (model of Python
`str.find`, which returns the leftmost match). -/
def findSubAux (pat : List Char) : List Char → Nat → Option Nat
  | [], i => if pat.isPrefixOf ([] : List Char) then some i else none
  | c :: t, i =>
    if pat.isPrefixOf (c :: t) then some i else findSubAux pat t (i + 1)

/-- `findSub hay pat` is the first index of `pat` in `hay`, if any. -/
def findSub (hay pat : List Char) : Option Nat := findSubAux pat hay 0

/-- Substring containment (model of Python `in` and Cypher `CONTAINS`). -/
def containsSub (hay pat : List Char) : Bool := (findSub hay pat).isSome

/-- Case-insensitive substring match: model of the Cypher condition
`toLower(x) CONTAINS toLower(term)`. -/
def containsCI (hay term : String) : Bool :=
  containsSub (lowerStr hay).data (lowerStr term).data

/-- Digit-string to number; `none` when empty or any non-digit appears
(the cases where Python `int(...)` raises `ValueError`). -/
def digitsToNat (l : List Char) : Option Nat :=
  if l ≠ [] ∧ l.all (fun c => 48 ≤ c.toNat ∧ c.toNat ≤ 57) then
    some (l.foldl (fun n c => n * 10 + (c.toNat - 48)) 0)
  else none

/-- Model of Python `int(s)` on strings: surrounding whitespace is ignored,
an optional sign is allowed, and anything else yields `none` (raise). -/
def pyInt? (s : String) : Option Int :=
  match trimChars s.data with
  | '-' :: rest => (digitsToNat rest).map (fun n => -(n : Int))
  | '+' :: rest => (digitsToNat rest).map (fun n => (n : Int))
  | t => (digitsToNat t).map (fun n => (n : Int))

/-- Split a character list on a separator character (model of Python
`str.split(";")`: `""` splits to `[""]`, separators delimit fields). -/
def splitOnCharAux (sep : Char) : List Char → List Char → List (List Char)
  | [], acc => [acc.reverse]
  | c :: t, acc =>
    if c = sep then acc.reverse :: splitOnCharAux sep t []
    else splitOnCharAux sep t (c :: acc)

/-- Model of Python `s.split(sep)` for a one-character separator. -/
def splitOnChar (sep : Char) (s : String) : List String :=
  (splitOnCharAux sep s.data []).map (fun l => ⟨l⟩)

/-- Join strings with a separator (model of Python `sep.join(...)`). -/
def joinWith (sep : String) : List String → String
  | [] => ""
  | [s] => s
  | s :: rest => s ++ sep ++ joinWith sep rest

/-- Lexicographic comparison of character lists by code point, the order
Python `sorted` uses on strings. -/
def lexLeChars : List Char → List Char → Bool
  | [], _ => true
  | _ :: _, [] => false
  | a :: as, b :: bs =>
    if a.toNat < b.toNat then true
    else if b.toNat < a.toNat then false
    else lexLeChars as bs

/-- Lexicographic `≤` on strings (Python string comparison). -/
def strLe (a b : String) : Bool := lexLeChars a.data b.data

/-- `strLe` as a relation, for use with `List.insertionSort`. -/
def strLeRel (a b : String) : Prop := strLe a b = true

instance : DecidableRel strLeRel := fun a b => inferInstanceAs (Decidable (_ = true))

theorem lexLeChars_cons_iff (u v : Char) (us vs : List Char) :
    lexLeChars (u :: us) (v :: vs) = true ↔
      u.toNat < v.toNat ∨ (u.toNat = v.toNat ∧ lexLeChars us vs = true) := by
  simp only [lexLeChars]
  by_cases h1 : u.toNat < v.toNat
  · simp [h1]
  · by_cases h2 : v.toNat < u.toNat
    · simp [h1, h2]; omega
    · have h3 : u.toNat = v.toNat := by omega
      simp [h1, h2, h3]

theorem lexLeChars_total (a b : List Char) :
    lexLeChars a b = true ∨ lexLeChars b a = true := by
  induction a generalizing b with
  | nil => exact Or.inl rfl
  | cons x xs ih =>
    cases b with
    | nil => exact Or.inr rfl
    | cons y ys =>
      rw [lexLeChars_cons_iff, lexLeChars_cons_iff]
      rcases ih ys with h | h
      · by_cases hxy : x.toNat < y.toNat
        · exact Or.inl (Or.inl hxy)
        · by_cases hyx : y.toNat < x.toNat
          · exact Or.inr (Or.inl hyx)
          · exact Or.inl (Or.inr ⟨by omega, h⟩)
      · by_cases hyx : y.toNat < x.toNat
        · exact Or.inr (Or.inl hyx)
        · by_cases hxy : x.toNat < y.toNat
          · exact Or.inl (Or.inl hxy)
          · exact Or.inr (Or.inr ⟨by omega, h⟩)

theorem lexLeChars_trans {a b c : List Char} (hab : lexLeChars a b = true)
    (hbc : lexLeChars b c = true) : lexLeChars a c = true := by
  induction a generalizing b c with
  | nil => rfl
  | cons x xs ih =>
    cases b with
    | nil => simp [lexLeChars] at hab
    | cons y ys =>
      cases c with
      | nil => simp [lexLeChars] at hbc
      | cons z zs =>
        rw [lexLeChars_cons_iff] at hab hbc ⊢
        rcases hab with h | ⟨he, hr⟩
        · rcases hbc with h2 | ⟨he2, _⟩
          · exact Or.inl (by omega)
          · exact Or.inl (by omega)
        · rcases hbc with h2 | ⟨he2, hr2⟩
          · exact Or.inl (by omega)
          · exact Or.inr ⟨by omega, ih hr hr2⟩

theorem lexLeChars_antisymm {a b : List Char} (hab : lexLeChars a b = true)
    (hba : lexLeChars b a = true) : a = b := by
  induction a generalizing b with
  | nil =>
    cases b with
    | nil => rfl
    | cons y ys => simp [lexLeChars] at hba
  | cons x xs ih =>
    cases b with
    | nil => simp [lexLeChars] at hab
    | cons y ys =>
      rw [lexLeChars_cons_iff] at hab hba
      rcases hab with h | ⟨he, hr⟩
      · rcases hba with h2 | ⟨he2, _⟩ <;> omega
      · rcases hba with h2 | ⟨he2, hr2⟩
        · omega
        · have hx : x = y := by
            apply Char.eq_of_val_eq
            apply UInt32.eq_of_val_eq
            exact Fin.eq_of_val_eq he
          rw [hx, ih hr hr2]

instance : IsTotal String strLeRel := ⟨fun a b => lexLeChars_total a.data b.data⟩

instance : IsTrans String strLeRel := ⟨fun _ _ _ => lexLeChars_trans⟩

instance : IsAntisymm String strLeRel :=
  ⟨fun a b hab hba => by
    cases a; cases b
    exact congrArg String.mk (lexLeChars_antisymm hab hba)⟩

/-! ## Generic list helpers -/

/-- Deduplication keeping the first occurrence of each element, the
behaviour both of Python `set` iteration folded into an ordered container
and of Cypher `collect(DISTINCT ...)`. -/
def dedupFirstAux [DecidableEq α] : List α → List α → List α
  | [], _ => []
  | a :: l, seen =>
    if a ∈ seen then dedupFirstAux l seen
    else a :: dedupFirstAux l (a :: seen)

/-- First-occurrence deduplication. -/
def dedupFirst [DecidableEq α] (l : List α) : List α := dedupFirstAux l []

theorem mem_dedupFirstAux [DecidableEq α] (l : List α) (seen : List α) (x : α) :
    x ∈ dedupFirstAux l seen ↔ x ∈ l ∧ x ∉ seen := by
  induction l generalizing seen with
  | nil => simp [dedupFirstAux]
  | cons a l ih =>
    by_cases ha : a ∈ seen
    · rw [dedupFirstAux, if_pos ha, ih]
      constructor
      · rintro ⟨hx, hns⟩
        exact ⟨List.mem_cons_of_mem _ hx, hns⟩
      · rintro ⟨hx, hns⟩
        rcases List.mem_cons.mp hx with rfl | hx
        · exact absurd ha hns
        · exact ⟨hx, hns⟩
    · rw [dedupFirstAux, if_neg ha]
      constructor
      · intro hmem
        rcases List.mem_cons.mp hmem with rfl | hmem
        · exact ⟨List.mem_cons_self _ _, ha⟩
        · obtain ⟨hx, hns⟩ := (ih _).mp hmem
          exact ⟨List.mem_cons_of_mem _ hx,
            fun hseen => hns (List.mem_cons_of_mem _ hseen)⟩
      · rintro ⟨hx, hns⟩
        rcases List.mem_cons.mp hx with rfl | hx
        · exact List.mem_cons_self _ _
        · by_cases hxa : x = a
          · subst hxa; exact List.mem_cons_self _ _
          · refine List.mem_cons_of_mem _ ((ih _).mpr ⟨hx, fun h => ?_⟩)
            rcases List.mem_cons.mp h with h | h
            · exact hxa h
            · exact hns h

theorem mem_dedupFirst [DecidableEq α] (l : List α) (x : α) :
    x ∈ dedupFirst l ↔ x ∈ l := by
  simp [dedupFirst, mem_dedupFirstAux]

theorem nodup_dedupFirstAux [DecidableEq α] (l : List α) (seen : List α) :
    (dedupFirstAux l seen).Nodup := by
  induction l generalizing seen with
  | nil => exact List.nodup_nil
  | cons a l ih =>
    by_cases ha : a ∈ seen
    · rw [dedupFirstAux, if_pos ha]
      exact ih seen
    · rw [dedupFirstAux, if_neg ha]
      refine List.Nodup.cons ?_ (ih (a :: seen))
      intro hmem
      exact ((mem_dedupFirstAux l (a :: seen) a).mp hmem).2 (List.mem_cons_self a seen)

theorem nodup_dedupFirst [DecidableEq α] (l : List α) : (dedupFirst l).Nodup :=
  nodup_dedupFirstAux l []

/-- Replacing every element by itself is the identity. -/
theorem map_self_of_fixed {α : Type} (g : α → α) (l : List α)
    (h : ∀ e ∈ l, g e = e) : l.map g = l := by
  induction l with
  | nil => rfl
  | cons a l ih =>
    simp only [List.map_cons, h a (List.mem_cons_self a l),
      ih (fun e he => h e (List.mem_cons_of_mem a he))]

/-- `find?` is unchanged when the predicate agrees on every element. -/
theorem find?_congr_pred {α : Type} (p q : α → Bool) (l : List α)
    (h : ∀ a, p a = q a) : l.find? p = l.find? q := by
  induction l with
  | nil => rfl
  | cons a l ih =>
    simp only [List.find?]
    rw [h a]
    cases q a <;> simp [ih]

/-! ## Graph store model

Nodes and relationships as persisted by the import scripts
(`import_biomarker_disease_edges_auto.py`, `import_biomarker_disease_edges.py`,
`import_enriched_diseases.py`): `Biomarker` nodes are keyed by `name`,
`Disease` nodes by `name` (carrying `doid`, `category`, `is_cancer_like` and
the semicolon-joined `synonyms` string from the enriched table), and one
`BIOMARKER_ASSOCIATED_WITH_DISEASE` relationship per biomarker/disease pair
carrying `specimen_type`, `pubmed_query`, `pubmed_count` and (for curated
evidence) a `strength` label.  Properties a script never sets are `none`. -/

structure BiomarkerNode where
  name : String
  biomarker_id : Option String
  category : Option String
deriving DecidableEq, Repr

structure DiseaseNode where
  name : String
  doid : Option String
  category : Option String
  is_cancer_like : Option Int
  synonyms : Option String
deriving DecidableEq, Repr

structure BDEdge where
  biomarker : String
  disease : String
  specimen_type : Option String
  pubmed_query : Option String
  pubmed_count : Option Int
  is_cancer_like : Option Int
  strength : Option String
deriving DecidableEq, Repr

structure GraphState where
  biomarkers : List BiomarkerNode
  diseases : List DiseaseNode
  edges : List BDEdge
  measuredIn : List (String × String)
  detectedIn : List (String × String)
deriving DecidableEq, Repr

/-! ## Query engine (`search_queries.py`)

`search_by_disease` and `search_by_biomarker` are Cypher read queries; each
becomes a pure function of the graph state.  The `OPTIONAL MATCH` over the
association edge yields one row per matched edge and a single null row when
no edge matches; `collect(DISTINCT s.name)` keeps the first occurrence of
each specimen name; `ORDER BY pubmed_count DESC` sorts rows by count
descending with `null` counts first (Cypher treats `null` as largest) and is
modelled as a stable sort, so equal counts keep their match order. -/

structure BiomarkerRow where
  biomarker : String
  disease : Option String
  disease_category : String
  pubmed_count : Option Int
  specimens : List String
deriving DecidableEq, Repr

structure DiseaseRow where
  disease : String
  disease_category : String
  biomarker : Option String
  pubmed_count : Option Int
  disease_specimens : List String
  biomarker_specimens : List String
deriving DecidableEq, Repr

/-- `descLe a b`: row with count `a` may appear no later than a row with
count `b` under `ORDER BY pubmed_count DESC` (null counts first). -/
def descLe : Option Int → Option Int → Bool
  | none, _ => true
  | some _, none => false
  | some x, some y => y ≤ x

theorem descLe_total (a b : Option Int) : descLe a b = true ∨ descLe b a = true := by
  cases a <;> cases b <;> simp [descLe] <;> omega

theorem descLe_trans {a b c : Option Int} (hab : descLe a b = true)
    (hbc : descLe b c = true) : descLe a c = true := by
  cases a <;> cases b <;> cases c <;> simp [descLe] at * <;> omega

/-- Order relation of the biomarker search results. -/
def bioRowLe (a b : BiomarkerRow) : Prop :=
  descLe a.pubmed_count b.pubmed_count = true

/-- Order relation of the disease search results. -/
def disRowLe (a b : DiseaseRow) : Prop :=
  descLe a.pubmed_count b.pubmed_count = true

instance : DecidableRel bioRowLe := fun _ _ => inferInstanceAs (Decidable (_ = true))

instance : DecidableRel disRowLe := fun _ _ => inferInstanceAs (Decidable (_ = true))

instance : IsTotal BiomarkerRow bioRowLe := ⟨fun a b => descLe_total _ _⟩

instance : IsTrans BiomarkerRow bioRowLe := ⟨fun _ _ _ => descLe_trans⟩

instance : IsTotal DiseaseRow disRowLe := ⟨fun a b => descLe_total _ _⟩

instance : IsTrans DiseaseRow disRowLe := ⟨fun _ _ _ => descLe_trans⟩

/-- `collect(DISTINCT s.name)` over `(b)-[:MEASURED_IN_SPECIMEN]->(s)`. -/
def specimensOfBiomarker (st : GraphState) (bname : String) : List String :=
  dedupFirst ((st.measuredIn.filter (fun pr => pr.1 == bname)).map (fun pr => pr.2))

/-- `collect(DISTINCT ds.name)` over `(d)-[:DETECTED_IN_SPECIMEN]->(ds)`. -/
def specimensOfDisease (st : GraphState) (dname : String) : List String :=
  dedupFirst ((st.detectedIn.filter (fun pr => pr.1 == dname)).map (fun pr => pr.2))

/-- Pre-sort row set of `search_by_biomarker`: biomarkers whose lower-cased
name contains the lower-cased term, each expanded through the optional match
of its association edges. -/
def search_by_biomarker_rows (st : GraphState) (term : String) : List BiomarkerRow :=
  (st.biomarkers.filter (fun b => containsCI b.name term)).flatMap (fun b =>
    let pairs := st.edges.flatMap (fun e =>
      if e.biomarker == b.name then
        (st.diseases.filter (fun d => d.name == e.disease)).map (fun d => (e, d))
      else [])
    let specs := specimensOfBiomarker st b.name
    match pairs with
    | [] => [⟨b.name, none, "unknown", none, specs⟩]
    | _ :: _ => pairs.map (fun pr =>
        ⟨b.name, some pr.2.name, pr.2.category.getD "unknown", pr.1.pubmed_count, specs⟩))

/-- `search_by_biomarker(term, limit)` from `backend/search_queries.py`. -/
def search_by_biomarker (st : GraphState) (term : String) (limit : Nat) : List BiomarkerRow :=
  (List.insertionSort bioRowLe (search_by_biomarker_rows st term)).take limit

/-- Pre-sort row set of `search_by_disease`. -/
def search_by_disease_rows (st : GraphState) (term : String) : List DiseaseRow :=
  (st.diseases.filter (fun d => containsCI d.name term)).flatMap (fun d =>
    let pairs := st.edges.flatMap (fun e =>
      if e.disease == d.name then
        (st.biomarkers.filter (fun b => b.name == e.biomarker)).map (fun b => (b, e))
      else [])
    let dspecs := specimensOfDisease st d.name
    match pairs with
    | [] => [⟨d.name, d.category.getD "unknown", none, none, dspecs, []⟩]
    | _ :: _ => pairs.map (fun pr =>
        ⟨d.name, d.category.getD "unknown", some pr.1.name, pr.2.pubmed_count, dspecs,
          specimensOfBiomarker st pr.1.name⟩))

/-- `search_by_disease(term, limit)` from `backend/search_queries.py`. -/
def search_by_disease (st : GraphState) (term : String) (limit : Nat) : List DiseaseRow :=
  (List.insertionSort disRowLe (search_by_disease_rows st term)).take limit

/-! ## Claim C1: ranking order of search results -/

/-- `true` iff count `x` is strictly larger than count `y` in the
`DESC` order with nulls first. -/
def descLt : Option Int → Option Int → Bool
  | none, none => false
  | none, some _ => true
  | some _, none => false
  | some x, some y => y < x

/-- The ordering the claim asserts for biomarker search rows: relevance
score (`pubmed_count`) descending, ties broken by canonical name
ascending. -/
def claimOrderedBio : List BiomarkerRow → Bool
  | [] => true
  | [_] => true
  | a :: b :: t =>
    (descLt a.pubmed_count b.pubmed_count ||
      (a.pubmed_count == b.pubmed_count && strLe a.biomarker b.biomarker)) &&
    claimOrderedBio (b :: t)

/-- Graph state with two biomarkers of equal relevance whose names are not
in ascending order of the engine's tie order. -/
def c1State : GraphState :=
  { biomarkers := [⟨"beta-2 microglobulin", none, none⟩, ⟨"albumin", none, none⟩]
    diseases := [⟨"dementia", none, none, none, none⟩]
    edges :=
      [⟨"beta-2 microglobulin", "dementia", none, none, some 5, none, none⟩,
       ⟨"albumin", "dementia", none, none, some 5, none, none⟩]
    measuredIn := []
    detectedIn := [] }

/-- Sorting a list and truncating it preserves sortedness. -/
theorem sorted_take {α : Type} {r : α → α → Prop} {l : List α} (h : List.Sorted r l)
    (n : Nat) : List.Sorted r (l.take n) :=
  List.Pairwise.sublist (List.take_sublist n l) h

/-- Claim C1, counterexample: on `c1State` with term `"a"`, both matching
biomarkers have `pubmed_count = 5`, and the returned rows are not in
ascending canonical-name order within the tie — the Cypher query orders by
`pubmed_count DESC` only and has no name tie-breaker. -/
theorem c1_counterexample :
    claimOrderedBio (search_by_biomarker c1State "a" 50) = false := by decide

/-- Claim C1 (amended): for every graph state, term and limit, the rows of
`search_by_biomarker` and `search_by_disease` are ordered by relevance
score (`pubmed_count`) descending (null counts first, per Cypher); ties are
NOT broken by canonical name — they keep the engine's match order — and two
calls with the same term and limit on the same graph state return identical
row orderings. -/
theorem c1_ranking_desc_and_deterministic (st : GraphState) (term : String) (limit : Nat) :
    List.Sorted bioRowLe (search_by_biomarker st term limit) ∧
    List.Sorted disRowLe (search_by_disease st term limit) ∧
    search_by_biomarker st term limit = search_by_biomarker st term limit ∧
    search_by_disease st term limit = search_by_disease st term limit := by
  refine ⟨?_, ?_, rfl, rfl⟩
  · exact sorted_take (List.sorted_insertionSort bioRowLe _) limit
  · exact sorted_take (List.sorted_insertionSort disRowLe _) limit

/-! ## Claim C7: which entities a search term matches -/

/-- The alias set of a stored disease: the members of its semicolon-joined
`synonyms` property (built by `build_disease_ontology_table.py` with
`"; ".join(synonyms)` and imported by `import_enriched_diseases.py`). -/
def aliasSetOf (d : DiseaseNode) : List String :=
  match d.synonyms with
  | none => []
  | some s => ((splitOnChar ';' s).map stripStr).filter (fun a => a ≠ "")

/-- The matching condition the claim asserts: the term matches the
canonical name or some member of the alias set, case-insensitively. -/
def claimMatchesDisease (d : DiseaseNode) (term : String) : Bool :=
  containsCI d.name term || (aliasSetOf d).any (fun a => containsCI a term)

/-- A disease whose alias set contains `"SLE"` but whose canonical name
does not contain `"sle"`. -/
def c7Lupus : DiseaseNode :=
  ⟨"lupus", some "DOID:8857", none, none, some "SLE; systemic lupus erythematosus"⟩

def c7State : GraphState :=
  { biomarkers := [], diseases := [c7Lupus], edges := [], measuredIn := [], detectedIn := [] }

/-- Claim C7, counterexample: the term `"sle"` matches an alias of the
stored disease `"lupus"`, yet `search_by_disease` returns no row for it —
the Cypher `WHERE` clause tests `toLower(d.name)` only and never consults
the `synonyms` property. -/
theorem c7_counterexample :
    ¬ ((∃ r ∈ search_by_disease c7State "sle" 50, r.disease = "lupus")
        ↔ claimMatchesDisease c7Lupus "sle" = true) := by decide

/-- Every row produced by the disease search carries the name of a matched
disease node. -/
theorem search_by_disease_rows_matched (st : GraphState) (term : String)
    (r : DiseaseRow) (hr : r ∈ search_by_disease_rows st term) :
    ∃ d ∈ st.diseases, r.disease = d.name ∧ containsCI d.name term = true := by
  rw [search_by_disease_rows] at hr
  rcases List.mem_flatMap.mp hr with ⟨d, hd, hrow⟩
  obtain ⟨hdm, hdc⟩ := List.mem_filter.mp hd
  refine ⟨d, hdm, ?_, hdc⟩
  rcases hpairs : st.edges.flatMap (fun e =>
      if e.disease == d.name then
        (st.biomarkers.filter (fun b => b.name == e.biomarker)).map (fun b => (b, e))
      else []) with _ | ⟨p, rest⟩
  · rw [hpairs] at hrow
    simp only [List.mem_singleton] at hrow
    rw [hrow]
  · rw [hpairs] at hrow
    rcases List.mem_map.mp hrow with ⟨pr, _, hpr⟩
    rw [← hpr]

/-- Every matched disease contributes at least one row carrying its name. -/
theorem search_by_disease_rows_complete (st : GraphState) (term : String)
    (d : DiseaseNode) (hd : d ∈ st.diseases) (hc : containsCI d.name term = true) :
    ∃ r ∈ search_by_disease_rows st term, r.disease = d.name := by
  rw [search_by_disease_rows]
  have hdf : d ∈ st.diseases.filter (fun d => containsCI d.name term) :=
    List.mem_filter.mpr ⟨hd, hc⟩
  rcases hpairs : st.edges.flatMap (fun e =>
      if e.disease == d.name then
        (st.biomarkers.filter (fun b => b.name == e.biomarker)).map (fun b => (b, e))
      else []) with _ | ⟨p, rest⟩
  · refine ⟨⟨d.name, d.category.getD "unknown", none, none,
      specimensOfDisease st d.name, []⟩, ?_, rfl⟩
    refine List.mem_flatMap.mpr ⟨d, hdf, ?_⟩
    rw [hpairs]
    exact List.mem_singleton.mpr rfl
  · refine ⟨⟨d.name, d.category.getD "unknown", some p.1.name, p.2.pubmed_count,
      specimensOfDisease st d.name, specimensOfBiomarker st p.1.name⟩, ?_, rfl⟩
    refine List.mem_flatMap.mpr ⟨d, hdf, ?_⟩
    rw [hpairs]
    exact List.mem_map.mpr ⟨p, List.mem_cons_self p rest, rfl⟩

/-- Rows returned by `search_by_disease` come from the pre-sort row set. -/
theorem mem_rows_of_mem_search_by_disease (st : GraphState) (term : String)
    (limit : Nat) (r : DiseaseRow) (hr : r ∈ search_by_disease st term limit) :
    r ∈ search_by_disease_rows st term := by
  rw [search_by_disease] at hr
  have h1 := (List.take_sublist limit _).subset hr
  exact (List.perm_insertionSort disRowLe _).mem_iff.mp h1

/-- Every row produced by the biomarker search carries the name of a
matched biomarker node. -/
theorem search_by_biomarker_rows_matched (st : GraphState) (term : String)
    (r : BiomarkerRow) (hr : r ∈ search_by_biomarker_rows st term) :
    ∃ b ∈ st.biomarkers, r.biomarker = b.name ∧ containsCI b.name term = true := by
  rw [search_by_biomarker_rows] at hr
  rcases List.mem_flatMap.mp hr with ⟨b, hb, hrow⟩
  obtain ⟨hbm, hbc⟩ := List.mem_filter.mp hb
  refine ⟨b, hbm, ?_, hbc⟩
  rcases hpairs : st.edges.flatMap (fun e =>
      if e.biomarker == b.name then
        (st.diseases.filter (fun d => d.name == e.disease)).map (fun d => (e, d))
      else []) with _ | ⟨p, rest⟩
  · rw [hpairs] at hrow
    simp only [List.mem_singleton] at hrow
    rw [hrow]
  · rw [hpairs] at hrow
    rcases List.mem_map.mp hrow with ⟨pr, _, hpr⟩
    rw [← hpr]

/-- Every matched biomarker contributes at least one row carrying its name. -/
theorem search_by_biomarker_rows_complete (st : GraphState) (term : String)
    (b : BiomarkerNode) (hb : b ∈ st.biomarkers) (hc : containsCI b.name term = true) :
    ∃ r ∈ search_by_biomarker_rows st term, r.biomarker = b.name := by
  rw [search_by_biomarker_rows]
  have hbf : b ∈ st.biomarkers.filter (fun b => containsCI b.name term) :=
    List.mem_filter.mpr ⟨hb, hc⟩
  rcases hpairs : st.edges.flatMap (fun e =>
      if e.biomarker == b.name then
        (st.diseases.filter (fun d => d.name == e.disease)).map (fun d => (e, d))
      else []) with _ | ⟨p, rest⟩
  · refine ⟨⟨b.name, none, "unknown", none, specimensOfBiomarker st b.name⟩, ?_, rfl⟩
    refine List.mem_flatMap.mpr ⟨b, hbf, ?_⟩
    rw [hpairs]
    exact List.mem_singleton.mpr rfl
  · refine ⟨⟨b.name, some p.2.name, p.2.category.getD "unknown", p.1.pubmed_count,
      specimensOfBiomarker st b.name⟩, ?_, rfl⟩
    refine List.mem_flatMap.mpr ⟨b, hbf, ?_⟩
    rw [hpairs]
    exact List.mem_map.mpr ⟨p, List.mem_cons_self p rest, rfl⟩

/-- Rows returned by `search_by_biomarker` come from the pre-sort row set. -/
theorem mem_rows_of_mem_search_by_biomarker (st : GraphState) (term : String)
    (limit : Nat) (r : BiomarkerRow) (hr : r ∈ search_by_biomarker st term limit) :
    r ∈ search_by_biomarker_rows st term := by
  rw [search_by_biomarker] at hr
  have h1 := (List.take_sublist limit _).subset hr
  exact (List.perm_insertionSort bioRowLe _).mem_iff.mp h1

/-- Claim C7 (amended): an entity contributes a search row iff the term
matches its canonical name case-insensitively, whenever the limit does not
truncate the result; the alias/synonym set plays no part in matching. -/
theorem c7_matching_is_name_only (st : GraphState) (term : String) (limit : Nat)
    (d : DiseaseNode) (b : BiomarkerNode) (hd : d ∈ st.diseases) (hb : b ∈ st.biomarkers)
    (hld : (search_by_disease_rows st term).length ≤ limit)
    (hlb : (search_by_biomarker_rows st term).length ≤ limit) :
    ((∃ r ∈ search_by_disease st term limit, r.disease = d.name)
      ↔ containsCI d.name term = true) ∧
    ((∃ r ∈ search_by_biomarker st term limit, r.biomarker = b.name)
      ↔ containsCI b.name term = true) := by
  constructor
  · constructor
    · rintro ⟨r, hr, hname⟩
      obtain ⟨d2, _, hrd, hc⟩ :=
        search_by_disease_rows_matched st term r
          (mem_rows_of_mem_search_by_disease st term limit r hr)
      rw [hname] at hrd
      rw [← hrd] at hc
      exact hc
    · intro hc
      obtain ⟨r, hr, hname⟩ := search_by_disease_rows_complete st term d hd hc
      refine ⟨r, ?_, hname⟩
      rw [search_by_disease]
      rw [List.take_of_length_le
        (by rw [(List.perm_insertionSort disRowLe _).length_eq]; exact hld)]
      exact (List.perm_insertionSort disRowLe _).mem_iff.mpr hr
  · constructor
    · rintro ⟨r, hr, hname⟩
      obtain ⟨b2, _, hrb, hc⟩ :=
        search_by_biomarker_rows_matched st term r
          (mem_rows_of_mem_search_by_biomarker st term limit r hr)
      rw [hname] at hrb
      rw [← hrb] at hc
      exact hc
    · intro hc
      obtain ⟨r, hr, hname⟩ := search_by_biomarker_rows_complete st term b hb hc
      refine ⟨r, ?_, hname⟩
      rw [search_by_biomarker]
      rw [List.take_of_length_le
        (by rw [(List.perm_insertionSort bioRowLe _).length_eq]; exact hlb)]
      exact (List.perm_insertionSort bioRowLe _).mem_iff.mpr hr

/-- Witness for the amended claim C7 on a concrete one-disease,
one-biomarker graph. -/
theorem c7_matching_is_name_only_witness :
    ((∃ r ∈ search_by_disease c1State "dem" 50, r.disease = "dementia")
      ↔ containsCI "dementia" "dem" = true) ∧
    ((∃ r ∈ search_by_biomarker c1State "dem" 50, r.biomarker = "albumin")
      ↔ containsCI "albumin" "dem" = true) :=
  c7_matching_is_name_only c1State "dem" 50
    ⟨"dementia", none, none, none, none⟩ ⟨"albumin", none, none⟩
    (by decide) (by decide) (by decide) (by decide)

/-! ## Claims C9 and C2: literature lookups and the zero-evidence policy

`fetch_pubmed_count` (`enrich_pubmed_counts_on_edges.py`) wraps the whole
Entrez call in `try/except` and returns `0` on any exception.  Its response
is modelled as `Option (Option String)`: `none` means the call or the parse
raised; `some cf` carries the optional `"Count"` field of the parsed record
(`record.get("Count", "0")`).

`query_pubmed_count` (`build_pubmed_edges_from_lists.py`) has NO handler
around `urllib.request.urlopen`; only the `<Count>` extraction and the
integer parse are guarded.  Its response is `Option String`: `none` means
the network call raised, which propagates (`Except.error`). -/

def fetch_pubmed_count (term : String) (response : Option (Option String)) : Int :=
  if term = "" then 0
  else
    match response with
    | none => 0
    | some countField => (pyInt? (countField.getD "0")).getD 0

def query_pubmed_count (response : Option String) : Except Unit Int :=
  match response with
  | none => Except.error ()
  | some xml =>
    match findSub xml.data "<Count>".data, findSub xml.data "</Count>".data with
    | some s, some e =>
      Except.ok ((pyInt? ⟨(xml.data.drop (s + 7)).take (e - (s + 7))⟩).getD 0)
    | some _, none => Except.ok 0
    | none, _ => Except.ok 0

/-- Claim C9, counterexample: a network failure makes `query_pubmed_count`
raise (propagate) instead of returning `0`, and a malformed count string
`"-3"` is returned as the negative integer `-3` by `fetch_pubmed_count`. -/
theorem c9_counterexample :
    query_pubmed_count none = Except.error () ∧
    fetch_pubmed_count "CA19-9" (some (some "-3")) = -3 :=
  ⟨rfl, by decide⟩

/-- Claim C9 (amended): `fetch_pubmed_count` returns 0 on any failure
(exception or unparsable count) without raising, and returns the parsed
count on success; `query_pubmed_count` returns 0 when the response lacks a
`<Count>` tag, but a network error propagates as an exception. -/
theorem c9_failure_behaviour :
    (∀ term, fetch_pubmed_count term none = 0) ∧
    (∀ term cf, pyInt? (cf.getD "0") = none → fetch_pubmed_count term (some cf) = 0) ∧
    (∀ term s n, term ≠ "" → pyInt? s = some n →
      fetch_pubmed_count term (some (some s)) = n) ∧
    query_pubmed_count none = Except.error () ∧
    (∀ xml, findSub xml.data "<Count>".data = none →
      query_pubmed_count (some xml) = Except.ok 0) := by
  refine ⟨fun term => ?_, fun term cf h => ?_, fun term s n ht h => ?_, rfl, fun xml h => ?_⟩
  · rw [fetch_pubmed_count]
    split <;> rfl
  · rw [fetch_pubmed_count, h]
    split <;> rfl
  · rw [fetch_pubmed_count, if_neg ht]
    simp [h]
  · rw [query_pubmed_count, h]

/-- Witness for the amended claim C9 at concrete failing and malformed
inputs. -/
theorem c9_failure_behaviour_witness :
    fetch_pubmed_count "CA19-9 AND gastric cancer" (some (some "notanumber")) = 0 ∧
    fetch_pubmed_count "CA19-9 AND gastric cancer" (some (some "12")) = 12 ∧
    query_pubmed_count (some "<html>server busy</html>") = Except.ok 0 :=
  ⟨c9_failure_behaviour.2.1 "CA19-9 AND gastric cancer" (some "notanumber") (by decide),
   c9_failure_behaviour.2.2.1 "CA19-9 AND gastric cancer" "12" 12 (by decide) (by decide),
   c9_failure_behaviour.2.2.2.2 "<html>server busy</html>" (by decide)⟩

/-- A CSV record as produced by `csv.DictReader`: an association list from
column name to cell text. -/
abbrev CsvRow := List (String × String)

/-- Python `row.get(key, default)`. -/
def rowGetD (r : CsvRow) (k dflt : String) : String :=
  ((r.find? (fun kv => kv.1 == k)).map (fun kv => kv.2)).getD dflt

/-- The count a row parses to in `load_edges`: `int(...)` with a
`ValueError` handler that substitutes 0. -/
def rowCount (r : CsvRow) : Int := (pyInt? (rowGetD r "pubmed_count" "0")).getD 0

/-- `load_edges` from `import_biomarker_disease_edges_auto.py`: rows whose
`pubmed_count` parses to a positive integer; all others are skipped
("Only keep pairs with some support"). -/
def load_edges (rows : List CsvRow) : List CsvRow :=
  rows.filter (fun r => 0 < rowCount r)

/-- A pair whose literature lookup failed: the enrichment recorded
`pubmed_count = "0"` for it. -/
def c2Row : CsvRow :=
  [("biomarker_name", "CA19-9"), ("disease_name", "pancreatic cancer"),
   ("pubmed_query", "CA19-9[Title/Abstract] AND pancreatic cancer[Title/Abstract]"),
   ("pubmed_count", "0")]

/-- Claim C2, counterexample: the failed lookup records count 0 (first
conjunct), but the row with count 0 is absent from the imported edge set —
`load_edges` drops it instead of retaining it. -/
theorem c2_counterexample :
    fetch_pubmed_count "CA19-9[Title/Abstract] AND pancreatic cancer[Title/Abstract]"
      none = 0 ∧
    load_edges [c2Row] = [] := by decide

/-- Claim C2 (amended): a failed or timed-out lookup records a co-mention
count of 0 for the pair, but the auto importer's loader retains exactly the
rows whose count is positive, so a zero-evidence edge is excluded from the
imported edge set rather than created. -/
theorem c2_zero_evidence_rows_are_dropped :
    (∀ term, fetch_pubmed_count term none = 0) ∧
    (∀ rows r, r ∈ load_edges rows ↔ r ∈ rows ∧ 0 < rowCount r) := by
  refine ⟨fun term => ?_, fun rows r => ?_⟩
  · rw [fetch_pubmed_count]
    split <;> rfl
  · rw [load_edges]
    rw [List.mem_filter]
    constructor
    · rintro ⟨h1, h2⟩
      exact ⟨h1, of_decide_eq_true h2⟩
    · rintro ⟨h1, h2⟩
      exact ⟨h1, decide_eq_true h2⟩

/-! ## Claim C5: `combine_text_lists` (`merge_weak_into_matrix.py`) -/

/-- The members of a semicolon-separated cell: split on `";"`, strip each
part, drop empties (`[p.strip() for p in val.split(";") if p.strip()]`). -/
def semiParts (s : String) : List String :=
  ((splitOnChar ';' s).map stripStr).filter (fun p => p ≠ "")

/-- The items one input value contributes: a missing value (pandas `NaN`,
modelled `none`) or a blank string contributes nothing. -/
def cellItems (v : Option String) : List String :=
  match v with
  | none => []
  | some s => if stripStr s ≠ "" then semiParts s else []

/-- `combine_text_lists(strong_val, weak_val)`: the unique, sorted union of
both inputs' items, joined with `"; "`; `""` when there are no items. -/
def combine_text_lists (strong weak : Option String) : String :=
  let items := cellItems strong ++ cellItems weak
  if items = [] then ""
  else joinWith "; " (List.insertionSort strLeRel (dedupFirst items))

/-- Sorting after first-occurrence dedup depends only on membership. -/
theorem sortDedup_eq_of_mem_iff (l₁ l₂ : List String)
    (h : ∀ x, x ∈ l₁ ↔ x ∈ l₂) :
    List.insertionSort strLeRel (dedupFirst l₁) =
      List.insertionSort strLeRel (dedupFirst l₂) := by
  have hperm : List.Perm (dedupFirst l₁) (dedupFirst l₂) := by
    rw [List.perm_ext_iff_of_nodup (nodup_dedupFirst l₁) (nodup_dedupFirst l₂)]
    intro x
    rw [mem_dedupFirst, mem_dedupFirst]
    exact h x
  refine List.eq_of_perm_of_sorted ?_ (List.sorted_insertionSort _ _)
    (List.sorted_insertionSort _ _)
  exact (List.perm_insertionSort _ _).trans
    (hperm.trans (List.perm_insertionSort _ _).symm)

/-- Claim C5: the merged value of two list-valued cells is the sorted,
deduplicated union of the elements of both inputs; the merge is commutative
and idempotent, and merging `{"X"}` with `{"Y"}` yields `{"X","Y"}`. -/
theorem c5_union_law (a b : Option String) :
    (∃ us : List String,
        combine_text_lists a b = joinWith "; " us ∧
        List.Sorted strLeRel us ∧ us.Nodup ∧
        (∀ x, x ∈ us ↔ x ∈ cellItems a ∨ x ∈ cellItems b)) ∧
    combine_text_lists a b = combine_text_lists b a ∧
    combine_text_lists a a = combine_text_lists a none ∧
    combine_text_lists (some "X") (some "Y") = "X; Y" := by
  refine ⟨?_, ?_, ?_, by decide⟩
  · refine ⟨List.insertionSort strLeRel (dedupFirst (cellItems a ++ cellItems b)),
      ?_, List.sorted_insertionSort _ _, ?_, ?_⟩
    · rw [combine_text_lists]
      by_cases h : cellItems a ++ cellItems b = []
      · rw [if_pos h, h]
        rfl
      · rw [if_neg h]
    · rw [(List.perm_insertionSort _ _).nodup_iff]
      exact nodup_dedupFirst _
    · intro x
      rw [(List.perm_insertionSort _ _).mem_iff, mem_dedupFirst, List.mem_append]
  · rw [combine_text_lists, combine_text_lists]
    by_cases h : cellItems a ++ cellItems b = []
    · rw [if_pos h]
      rcases List.append_eq_nil.mp h with ⟨h1, h2⟩
      rw [if_pos (by rw [h1, h2]; rfl)]
    · rw [if_neg h, if_neg (fun hc => h ?_)]
      · rw [sortDedup_eq_of_mem_iff (cellItems a ++ cellItems b)
          (cellItems b ++ cellItems a)
          (fun x => by rw [List.mem_append, List.mem_append]; exact Or.comm)]
      · rcases List.append_eq_nil.mp hc with ⟨h1, h2⟩
        rw [h1, h2]
        rfl
  · rw [combine_text_lists, combine_text_lists]
    by_cases h : cellItems a ++ cellItems a = []
    · rw [if_pos h]
      rcases List.append_eq_nil.mp h with ⟨h1, _⟩
      rw [if_pos (by rw [h1]; rfl)]
    · have h2 : cellItems a ++ cellItems (none : Option String) ≠ [] := by
        intro hc
        rcases List.append_eq_nil.mp hc with ⟨h1, _⟩
        exact h (by rw [h1]; rfl)
      rw [if_neg h, if_neg h2]
      rw [sortDedup_eq_of_mem_iff (cellItems a ++ cellItems a)
        (cellItems a ++ cellItems none)
        (fun x => by
          rw [List.mem_append, List.mem_append]
          constructor
          · rintro (hx | hx) <;> exact Or.inl hx
          · rintro (hx | hx)
            · exact Or.inl hx
            · cases hx)]

/-! ## Claim C8: column-role fallback (`build_biomarker_matrix.py`) -/

/-- The id-column test of `pick_id_and_name`:
`cl.endswith("_id") or cl == "id"` on the lower-cased column name. -/
def isIdCol (c : String) : Bool :=
  List.isSuffixOf "_id".data (lowerStr c).data || (lowerStr c).data == "id".data

/-- The name-column test of `pick_id_and_name`:
`"name" in cl or "label" in cl or "desc" in cl` on the lower-cased name. -/
def isNameCol (c : String) : Bool :=
  containsSub (lowerStr c).data "name".data ||
  containsSub (lowerStr c).data "label".data ||
  containsSub (lowerStr c).data "desc".data

/-- `pick_id_and_name(df, label)` from `build_biomarker_matrix.py`, as a
function of the column list; `none` models the `IndexError` on an empty
column list (`cols[0]`). -/
def pick_id_and_name (cols : List String) : Option (String × String) :=
  match cols with
  | [] => none
  | c0 :: rest =>
    let id_col := (cols.find? isIdCol).getD c0
    let name_col :=
      match cols.find? isNameCol with
      | some c => c
      | none =>
        match rest with
        | c1 :: _ => c1
        | [] => id_col
    some (id_col, name_col)

/-- The id-column rule exactly as the claim states it: the first column
ending in `"id"` — not `"_id"` — or literally `"id"`, else the first
column. -/
def claimPickIdCol (cols : List String) : Option String :=
  match cols with
  | [] => none
  | c0 :: _ =>
    some ((cols.find? (fun c =>
      List.isSuffixOf "id".data (lowerStr c).data)).getD c0)

/-- Claim C8, counterexample: on the column list `["sample", "myid"]` the
claim's rule (first column ending in "id") picks `"myid"` as id column, but
the code tests `endswith("_id")`, finds nothing, and falls back to the
first column `"sample"`. -/
theorem c8_counterexample :
    pick_id_and_name ["sample", "myid"] = some ("sample", "myid") ∧
    claimPickIdCol ["sample", "myid"] = some "myid" := by decide

/-- A successful `find?` returns the first satisfying element: the list
splits around the result with no earlier satisfying element. -/
theorem find?_eq_some_split {α : Type} (p : α → Bool) (l : List α) (b : α)
    (h : l.find? p = some b) :
    p b = true ∧ ∃ pre post, l = pre ++ b :: post ∧ ∀ a ∈ pre, p a = false := by
  induction l with
  | nil => cases h
  | cons a l ih =>
    rw [List.find?] at h
    rcases hpa : p a with _ | _
    · rw [hpa] at h
      obtain ⟨hp, pre, post, hsplit, hpre⟩ := ih h
      refine ⟨hp, a :: pre, post, by rw [List.cons_append, hsplit], ?_⟩
      intro x hx
      rcases List.mem_cons.mp hx with rfl | hx
      · exact hpa
      · exact hpre x hx
    · rw [hpa] at h
      have hb : a = b := Option.some.inj h
      subst hb
      exact ⟨hpa, [], l, rfl, fun x hx => absurd hx (List.not_mem_nil x)⟩

/-- Claim C8 (amended): on a non-empty column list the fallback picks as id
column the FIRST column ending in `"_id"` or literally `"id"` — witnessed
by a split of the column list with no id-like column before the pick —
else the first column; and as name column the FIRST column containing
`"name"`/`"label"`/`"desc"` (else the second column if present, else the id
column); no `inferred_mapping` tag is attached to the output — the fallback
only logs its choice. -/
theorem c8_fallback_column_roles (cols : List String) (h : cols ≠ []) :
    ∃ idc namec, pick_id_and_name cols = some (idc, namec) ∧
      idc ∈ cols ∧ namec ∈ cols ∧
      (cols.any isIdCol = true →
        ∃ pre post, cols = pre ++ idc :: post ∧ isIdCol idc = true ∧
          ∀ c ∈ pre, isIdCol c = false) ∧
      (cols.any isIdCol = false → some idc = cols.head?) ∧
      (cols.any isNameCol = true →
        ∃ pre post, cols = pre ++ namec :: post ∧ isNameCol namec = true ∧
          ∀ c ∈ pre, isNameCol c = false) ∧
      (cols.any isNameCol = false →
        some namec = cols[1]? ∨ (cols[1]? = none ∧ namec = idc)) := by
  match cols with
  | [] => exact absurd rfl h
  | c0 :: rest =>
    have idContra : ∀ cid, List.find? isIdCol (c0 :: rest) = some cid →
        (c0 :: rest).any isIdCol = false → False := by
      intro cid hf hnone
      have hany : (c0 :: rest).any isIdCol = true :=
        List.any_eq_true.mpr ⟨cid, List.mem_of_find?_eq_some hf, List.find?_some hf⟩
      rw [hany] at hnone
      cases hnone
    have nmContra : ∀ cnm, List.find? isNameCol (c0 :: rest) = some cnm →
        (c0 :: rest).any isNameCol = false → False := by
      intro cnm hn hnone
      have hany : (c0 :: rest).any isNameCol = true :=
        List.any_eq_true.mpr ⟨cnm, List.mem_of_find?_eq_some hn, List.find?_some hn⟩
      rw [hany] at hnone
      cases hnone
    have idNone : List.find? isIdCol (c0 :: rest) = none →
        (c0 :: rest).any isIdCol = true → False := by
      intro hf hany
      rcases List.any_eq_true.mp hany with ⟨x, hx, hpx⟩
      exact absurd hpx (List.find?_eq_none.mp hf x hx)
    have nmNone : List.find? isNameCol (c0 :: rest) = none →
        (c0 :: rest).any isNameCol = true → False := by
      intro hn hany
      rcases List.any_eq_true.mp hany with ⟨x, hx, hpx⟩
      exact absurd hpx (List.find?_eq_none.mp hn x hx)
    rcases hf : List.find? isIdCol (c0 :: rest) with _ | cid <;>
      rcases hn : List.find? isNameCol (c0 :: rest) with _ | cnm
    · match rest with
      | [] =>
        refine ⟨c0, c0, ?_, List.mem_cons_self _ _, List.mem_cons_self _ _,
          fun hany => (idNone hf hany).elim, fun _ => rfl,
          fun hany => (nmNone hn hany).elim, fun _ => Or.inr ⟨rfl, rfl⟩⟩
        simp only [pick_id_and_name, hf, hn]
        rfl
      | c1 :: rest2 =>
        refine ⟨c0, c1, ?_, List.mem_cons_self _ _,
          List.mem_cons_of_mem _ (List.mem_cons_self _ _),
          fun hany => (idNone hf hany).elim, fun _ => rfl,
          fun hany => (nmNone hn hany).elim, fun _ => Or.inl (by simp)⟩
        simp only [pick_id_and_name, hf, hn]
        rfl
    · obtain ⟨hnp, npre, npost, hnsplit, hnpre⟩ := find?_eq_some_split isNameCol _ cnm hn
      refine ⟨c0, cnm, ?_, List.mem_cons_self _ _, List.mem_of_find?_eq_some hn,
        fun hany => (idNone hf hany).elim, fun _ => rfl,
        fun _ => ⟨npre, npost, hnsplit, hnp, hnpre⟩,
        fun hnone => absurd (nmContra cnm hn hnone) not_false⟩
      simp only [pick_id_and_name, hf, hn]
      rfl
    · obtain ⟨hip, ipre, ipost, hisplit, hipre⟩ := find?_eq_some_split isIdCol _ cid hf
      match rest with
      | [] =>
        refine ⟨cid, cid, ?_, List.mem_of_find?_eq_some hf, List.mem_of_find?_eq_some hf,
          fun _ => ⟨ipre, ipost, hisplit, hip, hipre⟩,
          fun hnone => absurd (idContra cid hf hnone) not_false,
          fun hany => (nmNone hn hany).elim, fun _ => Or.inr ⟨rfl, rfl⟩⟩
        simp only [pick_id_and_name, hf, hn]
        rfl
      | c1 :: rest2 =>
        refine ⟨cid, c1, ?_, List.mem_of_find?_eq_some hf,
          List.mem_cons_of_mem _ (List.mem_cons_self _ _),
          fun _ => ⟨ipre, ipost, hisplit, hip, hipre⟩,
          fun hnone => absurd (idContra cid hf hnone) not_false,
          fun hany => (nmNone hn hany).elim, fun _ => Or.inl (by simp)⟩
        simp only [pick_id_and_name, hf, hn]
        rfl
    · obtain ⟨hip, ipre, ipost, hisplit, hipre⟩ := find?_eq_some_split isIdCol _ cid hf
      obtain ⟨hnp, npre, npost, hnsplit, hnpre⟩ := find?_eq_some_split isNameCol _ cnm hn
      refine ⟨cid, cnm, ?_, List.mem_of_find?_eq_some hf, List.mem_of_find?_eq_some hn,
        fun _ => ⟨ipre, ipost, hisplit, hip, hipre⟩,
        fun hnone => absurd (idContra cid hf hnone) not_false,
        fun _ => ⟨npre, npost, hnsplit, hnp, hnpre⟩,
        fun hnone => absurd (nmContra cnm hn hnone) not_false⟩
      simp only [pick_id_and_name, hf, hn]
      rfl

/-- Witness for the amended claim C8 on a column list with two id-like and
two name-like columns, exercising that the FIRST of each is picked. -/
theorem c8_fallback_column_roles_witness :
    ∃ idc namec,
      pick_id_and_name ["biomarker_id", "source_id", "name", "label"] = some (idc, namec) ∧
      idc ∈ ["biomarker_id", "source_id", "name", "label"] ∧
      namec ∈ ["biomarker_id", "source_id", "name", "label"] ∧
      (["biomarker_id", "source_id", "name", "label"].any isIdCol = true →
        ∃ pre post,
          ["biomarker_id", "source_id", "name", "label"] = pre ++ idc :: post ∧
          isIdCol idc = true ∧ ∀ c ∈ pre, isIdCol c = false) ∧
      (["biomarker_id", "source_id", "name", "label"].any isIdCol = false →
        some idc = ["biomarker_id", "source_id", "name", "label"].head?) ∧
      (["biomarker_id", "source_id", "name", "label"].any isNameCol = true →
        ∃ pre post,
          ["biomarker_id", "source_id", "name", "label"] = pre ++ namec :: post ∧
          isNameCol namec = true ∧ ∀ c ∈ pre, isNameCol c = false) ∧
      (["biomarker_id", "source_id", "name", "label"].any isNameCol = false →
        some namec = ["biomarker_id", "source_id", "name", "label"][1]? ∨
          (["biomarker_id", "source_id", "name", "label"][1]? = none ∧ namec = idc)) :=
  c8_fallback_column_roles ["biomarker_id", "source_id", "name", "label"] (by decide)

/-! ## Claim C6: ambiguous name resolution (`merge_diseases_with_doid.py`) -/

/-- A row of the local disease table (`data/diseases.csv`). -/
structure LocalDisease where
  disease_id : String
  name : String
deriving DecidableEq, Repr

/-- A row of the DOID ontology table (`data/disease_ontology.csv`), with the
columns the merge selects. -/
structure DoidRow where
  doid : String
  name : String
  synonyms : String
  is_cancer_like : String
  umls_ids : String
  icd10_ids : String
deriving DecidableEq, Repr

/-- The join key `name_norm`: `str.lower().str.strip()`. -/
def name_norm (s : String) : String := stripStr (lowerStr s)

/-- `pd.merge(df_local, df_doid, on="name_norm", how="left")` followed by
the DOID-only concatenation: the left join yields one output row per
matching DOID row — a candidate matching several canonical entities is
joined to each of them — and a single null-extended row when nothing
matches; the second component is the appended DOID-only block. -/
def merge_diseases_with_doid (locRows : List LocalDisease) (doidRows : List DoidRow) :
    List (LocalDisease × Option DoidRow) × List DoidRow :=
  (locRows.flatMap (fun l =>
      match doidRows.filter (fun d => name_norm d.name == name_norm l.name) with
      | [] => [(l, none)]
      | m :: ms => (m :: ms).map (fun d => (l, some d))),
   doidRows.filter (fun d =>
      !(locRows.any (fun l => name_norm l.name == name_norm d.name))))

def c6Local : LocalDisease := ⟨"D1", "Pancreatic Cancer"⟩

def c6DoidA : DoidRow := ⟨"DOID:1793", "pancreatic cancer", "", "1", "", ""⟩

def c6DoidB : DoidRow := ⟨"DOID:9999", "Pancreatic cancer ", "", "1", "", ""⟩

/-- Claim C6, counterexample: the candidate `"Pancreatic Cancer"` matches
two distinct canonical DOID entities, yet no ambiguity error is raised —
the left join silently merges the candidate into BOTH matches, producing
one output row per match. -/
theorem c6_counterexample :
    (merge_diseases_with_doid [c6Local] [c6DoidA, c6DoidB]).1 =
      [(c6Local, some c6DoidA), (c6Local, some c6DoidB)] ∧
    ¬ (∀ pr ∈ (merge_diseases_with_doid [c6Local] [c6DoidA, c6DoidB]).1,
        pr.2 = none) := by decide

/-- Claim C6 (amended): a candidate whose normalized name matches one or
more canonical DOID entities is joined to every matching entity (one merged
output row per match); no ambiguity error is raised and the candidate is
not flagged. -/
theorem c6_ambiguous_candidate_joins_every_match (locRows : List LocalDisease)
    (doidRows : List DoidRow) (l : LocalDisease) (d : DoidRow)
    (hl : l ∈ locRows) (hd : d ∈ doidRows)
    (hmatch : name_norm d.name = name_norm l.name) :
    (l, some d) ∈ (merge_diseases_with_doid locRows doidRows).1 := by
  rw [merge_diseases_with_doid]
  refine List.mem_flatMap.mpr ⟨l, hl, ?_⟩
  have hdf : d ∈ doidRows.filter (fun d => name_norm d.name == name_norm l.name) :=
    List.mem_filter.mpr ⟨hd, by rw [hmatch]; exact beq_self_eq_true _⟩
  rcases hflt : doidRows.filter (fun d => name_norm d.name == name_norm l.name)
    with _ | ⟨m, ms⟩
  · rw [hflt] at hdf
    cases hdf
  · rw [hflt] at hdf
    rw [hflt]
    exact List.mem_map.mpr ⟨d, hdf, rfl⟩

/-- Witness for the amended claim C6 at the concrete ambiguous input. -/
theorem c6_ambiguous_candidate_joins_every_match_witness :
    (c6Local, some c6DoidB) ∈ (merge_diseases_with_doid [c6Local] [c6DoidA, c6DoidB]).1 :=
  c6_ambiguous_candidate_joins_every_match [c6Local] [c6DoidA, c6DoidB] c6Local c6DoidB
    (by decide) (by decide) (by decide)

/-! ## Claim C10: curated master merge (`merge_biomarker_disease_curated.py`) -/

/-- The universal schema `COLUMNS` of the master file. -/
def curatedColumns : List String :=
  ["biomarker_name", "biomarker_id", "biomarker_source_id", "disease_name", "doid",
   "is_cancer_like", "specimen_type", "evidence_type", "evidence_source",
   "evidence_ref", "pubmed_query", "pubmed_count", "strength", "notes"]

/-- The dedup key `(biomarker_name, disease_name, specimen_type)`;
`row["k"]` is modelled by lookup with default `""` (the curated inputs all
carry the key columns). -/
def curatedKey (r : CsvRow) : String × String × String :=
  (rowGetD r "biomarker_name" "", rowGetD r "disease_name" "",
   rowGetD r "specimen_type" "")

/-- `{col: row.get(col, "") for col in COLUMNS}`. -/
def projectColumns (r : CsvRow) : CsvRow :=
  curatedColumns.map (fun c => (c, rowGetD r c ""))

/-- An input CSV file with its name. -/
structure NamedCsv where
  fname : String
  rows : List CsvRow
deriving DecidableEq, Repr

/-- Order of `sorted(INPUT_DIR.glob("*.csv"))`: lexicographic by file
name (all paths share the directory prefix). -/
def fileLe (a b : NamedCsv) : Prop := strLeRel a.fname b.fname

instance : DecidableRel fileLe := fun _ _ => inferInstanceAs (Decidable (_ = true))

instance : IsTotal NamedCsv fileLe := ⟨fun a b => lexLeChars_total a.fname.data b.fname.data⟩

instance : IsTrans NamedCsv fileLe := ⟨fun _ _ _ => lexLeChars_trans⟩

/-- The `seen`-set loop of `main`: keep a row only when its key has not
been seen, projecting kept rows onto the universal schema. -/
def mergeCuratedAux : List CsvRow → List (String × String × String) → List CsvRow
  | [], _ => []
  | r :: rs, seen =>
    if curatedKey r ∈ seen then mergeCuratedAux rs seen
    else projectColumns r :: mergeCuratedAux rs (curatedKey r :: seen)

/-- All rows of the sorted input files, in processing order. -/
def curatedInputRows (files : List NamedCsv) : List CsvRow :=
  (List.insertionSort fileLe files).flatMap (fun f => f.rows)

/-- `main` of `merge_biomarker_disease_curated.py`: files in sorted name
order, first occurrence of each key wins. -/
def merge_biomarker_disease_curated (files : List NamedCsv) : List CsvRow :=
  mergeCuratedAux (curatedInputRows files) []

theorem curatedKey_projectColumns (r : CsvRow) :
    curatedKey (projectColumns r) = curatedKey r := rfl

theorem mergeCuratedAux_not_seen (rows : List CsvRow)
    (seen : List (String × String × String)) :
    ∀ x ∈ mergeCuratedAux rows seen, curatedKey x ∉ seen := by
  induction rows generalizing seen with
  | nil => intro x hx; cases hx
  | cons r rs ih =>
    intro x hx
    rw [mergeCuratedAux] at hx
    by_cases hr : curatedKey r ∈ seen
    · rw [if_pos hr] at hx
      exact ih seen x hx
    · rw [if_neg hr] at hx
      rcases List.mem_cons.mp hx with rfl | hx
      · rw [curatedKey_projectColumns]
        exact hr
      · intro hseen
        exact ih _ x hx (List.mem_cons_of_mem _ hseen)

theorem mergeCuratedAux_keys_distinct (rows : List CsvRow)
    (seen : List (String × String × String)) :
    (mergeCuratedAux rows seen).Pairwise (fun a b => curatedKey a ≠ curatedKey b) := by
  induction rows generalizing seen with
  | nil => exact List.Pairwise.nil
  | cons r rs ih =>
    rw [mergeCuratedAux]
    by_cases hr : curatedKey r ∈ seen
    · rw [if_pos hr]
      exact ih seen
    · rw [if_neg hr]
      refine List.Pairwise.cons ?_ (ih _)
      intro x hx heq
      have := mergeCuratedAux_not_seen rs (curatedKey r :: seen) x hx
      rw [curatedKey_projectColumns] at heq
      exact this (heq ▸ List.mem_cons_self _ _)

theorem mergeCuratedAux_first_wins (rows : List CsvRow)
    (seen : List (String × String × String)) (k : String × String × String)
    (hk : k ∉ seen) :
    (mergeCuratedAux rows seen).find? (fun r => curatedKey r == k) =
      (rows.find? (fun r => curatedKey r == k)).map projectColumns := by
  induction rows generalizing seen with
  | nil => rfl
  | cons r rs ih =>
    rw [mergeCuratedAux, List.find?]
    by_cases hkey : curatedKey r == k
    · have hkeq : curatedKey r = k := eq_of_beq hkey
      rw [if_neg (fun hmem => hk (hkeq ▸ hmem))]
      rw [List.find?]
      have : (curatedKey (projectColumns r) == k) = true := by
        rw [curatedKey_projectColumns]
        exact hkey
      rw [this, hkey]
      rfl
    · have hkb : (curatedKey r == k) = false := Bool.eq_false_iff.mpr hkey
      rw [hkb]
      by_cases hr : curatedKey r ∈ seen
      · rw [if_pos hr]
        exact ih seen hk
      · rw [if_neg hr, List.find?]
        have : (curatedKey (projectColumns r) == k) = false := by
          rw [curatedKey_projectColumns]
          exact hkb
        rw [this]
        refine ih _ (fun hmem => ?_)
        rcases List.mem_cons.mp hmem with heq | hmem2
        · exact hkey (heq ▸ beq_self_eq_true _)
        · exact hk hmem2

/-- Claim C10: the curated master merge keeps at most one row per
`(biomarker_name, disease_name, specimen_type)` key, and the retained row
for each key is (the schema projection of) the first row with that key in
the concatenation of the input files taken in sorted file-name order. -/
theorem c10_first_occurrence_wins (files : List NamedCsv) :
    (merge_biomarker_disease_curated files).Pairwise
      (fun a b => curatedKey a ≠ curatedKey b) ∧
    ∀ k, (merge_biomarker_disease_curated files).find? (fun r => curatedKey r == k) =
      ((curatedInputRows files).find? (fun r => curatedKey r == k)).map projectColumns := by
  refine ⟨mergeCuratedAux_keys_distinct _ _, fun k => ?_⟩
  exact mergeCuratedAux_first_wins (curatedInputRows files) [] k (fun h => by cases h)

/-! ## Edge upserts (Cypher `MERGE` on a relationship)

`MERGE (b)-[r:...]->(d)` followed by `SET`/`ON MATCH SET` updates every
existing relationship between the two key nodes, or appends one freshly
created relationship when none exists. -/

/-- The relationship key: endpoints `(biomarker name, disease name)`. -/
def keyedEdge (b d : String) (e : BDEdge) : Bool :=
  e.biomarker == b && e.disease == d

/-- `MERGE` + `SET` on the edge list: update all matches with `f`, or
append the freshly created-and-set edge `mk`. -/
def updEdges (p : BDEdge → Bool) (f : BDEdge → BDEdge) (mk : BDEdge)
    (l : List BDEdge) : List BDEdge :=
  if l.any p then l.map (fun e => if p e then f e else e) else l ++ [mk]

/-- The saturation predicate of an upsert: some edge matches, and every
matching edge is a fixed point of the property update. -/
def EdgeSetDone (p : BDEdge → Bool) (f : BDEdge → BDEdge) (l : List BDEdge) : Prop :=
  l.any p = true ∧ ∀ e ∈ l, p e = true → f e = e

theorem updEdges_fixed (p : BDEdge → Bool) (f : BDEdge → BDEdge) (mk : BDEdge)
    (l : List BDEdge) (hdone : EdgeSetDone p f l) : updEdges p f mk l = l := by
  rw [updEdges, if_pos hdone.1]
  exact map_self_of_fixed _ _ (fun e he => by
    by_cases hp : p e
    · rw [if_pos hp]
      exact hdone.2 e he hp
    · rw [if_neg hp])

theorem updEdges_done (p : BDEdge → Bool) (f : BDEdge → BDEdge) (mk : BDEdge)
    (l : List BDEdge) (hpf : ∀ e, p (f e) = p e) (hidem : ∀ e, f (f e) = f e)
    (hpmk : p mk = true) (hmkfix : f mk = mk) :
    EdgeSetDone p f (updEdges p f mk l) := by
  by_cases hany : l.any p = true
  · rw [updEdges, if_pos hany]
    rcases List.any_eq_true.mp hany with ⟨e, he, hpe⟩
    constructor
    · refine List.any_eq_true.mpr ⟨f e, List.mem_map.mpr ⟨e, he, ?_⟩, ?_⟩
      · rw [if_pos hpe]
      · rw [hpf e]
        exact hpe
    · intro x hx hpx
      rcases List.mem_map.mp hx with ⟨e2, he2, hge⟩
      by_cases hpe2 : p e2
      · rw [if_pos hpe2] at hge
        rw [← hge]
        exact hidem e2
      · rw [if_neg hpe2] at hge
        rw [← hge] at hpx
        exact absurd hpx hpe2
  · rw [updEdges, if_neg hany]
    have hnone : ∀ x ∈ l, ¬ p x = true :=
      List.any_eq_false.mp ((Bool.not_eq_true _).mp hany)
    constructor
    · refine List.any_eq_true.mpr ⟨mk, List.mem_append_right _ (List.mem_singleton.mpr rfl),
        hpmk⟩
    · intro x hx hpx
      rcases List.mem_append.mp hx with hx | hx
      · exact absurd hpx (hnone x hx)
      · rw [List.mem_singleton.mp hx]
        exact hmkfix

theorem updEdges_preserves_done (p q : BDEdge → Bool) (f : BDEdge → BDEdge)
    (mk : BDEdge) (l : List BDEdge) (hqf : ∀ e, q (f e) = q e)
    (hdisj : ∀ e, q e = true → p e = false) (hpmk : p mk = true)
    (hdone : EdgeSetDone q f l) : EdgeSetDone q f (updEdges p f mk l) := by
  by_cases hany : l.any p = true
  · rw [updEdges, if_pos hany]
    rcases List.any_eq_true.mp hdone.1 with ⟨e, he, hqe⟩
    constructor
    · refine List.any_eq_true.mpr ⟨e, List.mem_map.mpr ⟨e, he, ?_⟩, hqe⟩
      rw [if_neg (by rw [hdisj e hqe]; exact Bool.false_ne_true)]
    · intro x hx hqx
      rcases List.mem_map.mp hx with ⟨e2, he2, hge⟩
      by_cases hpe2 : p e2
      · rw [if_pos hpe2] at hge
        rw [← hge] at hqx
        rw [hqf e2] at hqx
        rw [hdisj e2 hqx] at hpe2
        exact absurd hpe2 Bool.false_ne_true
      · rw [if_neg hpe2] at hge
        rw [← hge]
        exact hdone.2 e2 he2 (hge ▸ hqx)
  · rw [updEdges, if_neg hany]
    constructor
    · rcases List.any_eq_true.mp hdone.1 with ⟨e, he, hqe⟩
      exact List.any_eq_true.mpr ⟨e, List.mem_append_left _ he, hqe⟩
    · intro x hx hqx
      rcases List.mem_append.mp hx with hx | hx
      · exact hdone.2 x hx hqx
      · rw [List.mem_singleton.mp hx] at hqx
        rw [hdisj mk hqx] at hpmk
        exact absurd hpmk Bool.false_ne_true

theorem keyedEdge_of_keep (b d : String) (f : BDEdge → BDEdge)
    (hkeep : ∀ e, (f e).biomarker = e.biomarker ∧ (f e).disease = e.disease) (e : BDEdge) :
    keyedEdge b d (f e) = keyedEdge b d e := by
  rw [keyedEdge, keyedEdge, (hkeep e).1, (hkeep e).2]

theorem keyedEdge_disjoint (k k2 : String × String) (hne : k ≠ k2) (e : BDEdge)
    (h : keyedEdge k.1 k.2 e = true) : keyedEdge k2.1 k2.2 e = false := by
  rw [keyedEdge, Bool.and_eq_true] at h
  obtain ⟨hb, hd⟩ := h
  by_cases h2 : keyedEdge k2.1 k2.2 e = true
  · rw [keyedEdge, Bool.and_eq_true] at h2
    obtain ⟨hb2, hd2⟩ := h2
    exact absurd (Prod.ext ((eq_of_beq hb).symm.trans (eq_of_beq hb2))
      ((eq_of_beq hd).symm.trans (eq_of_beq hd2))) hne
  · exact (Bool.not_eq_true _).mp h2

/-- One row's fold of relationship upserts over a list of endpoint keys
(all matched node pairs of a single `MERGE`). -/
def foldUpd (f : BDEdge → BDEdge) (mkF : String × String → BDEdge)
    (l : List BDEdge) (ks : List (String × String)) : List BDEdge :=
  ks.foldl (fun es k => updEdges (keyedEdge k.1 k.2) f (mkF k) es) l

theorem doneK_after_upd (f : BDEdge → BDEdge) (mkF : String × String → BDEdge)
    (hkeep : ∀ e, (f e).biomarker = e.biomarker ∧ (f e).disease = e.disease)
    (hidem : ∀ e, f (f e) = f e)
    (hmkkey : ∀ k, keyedEdge k.1 k.2 (mkF k) = true)
    (hmkfix : ∀ k, f (mkF k) = mkF k)
    (k k2 : String × String) (l : List BDEdge)
    (hdone : EdgeSetDone (keyedEdge k.1 k.2) f l) :
    EdgeSetDone (keyedEdge k.1 k.2) f (updEdges (keyedEdge k2.1 k2.2) f (mkF k2) l) := by
  by_cases hkk : k = k2
  · subst hkk
    exact updEdges_done _ f (mkF k) l (keyedEdge_of_keep k.1 k.2 f hkeep) hidem
      (hmkkey k) (hmkfix k)
  · exact updEdges_preserves_done _ _ f (mkF k2) l (keyedEdge_of_keep k.1 k.2 f hkeep)
      (fun e he => keyedEdge_disjoint k k2 hkk e he) (hmkkey k2) hdone

theorem doneK_after_foldUpd (f : BDEdge → BDEdge) (mkF : String × String → BDEdge)
    (hkeep : ∀ e, (f e).biomarker = e.biomarker ∧ (f e).disease = e.disease)
    (hidem : ∀ e, f (f e) = f e)
    (hmkkey : ∀ k, keyedEdge k.1 k.2 (mkF k) = true)
    (hmkfix : ∀ k, f (mkF k) = mkF k)
    (k : String × String) (ks : List (String × String)) (l : List BDEdge)
    (hdone : EdgeSetDone (keyedEdge k.1 k.2) f l) :
    EdgeSetDone (keyedEdge k.1 k.2) f (foldUpd f mkF l ks) := by
  induction ks generalizing l with
  | nil => exact hdone
  | cons k2 ks ih =>
    exact ih _ (doneK_after_upd f mkF hkeep hidem hmkkey hmkfix k k2 l hdone)

theorem foldUpd_establishes (f : BDEdge → BDEdge) (mkF : String × String → BDEdge)
    (hkeep : ∀ e, (f e).biomarker = e.biomarker ∧ (f e).disease = e.disease)
    (hidem : ∀ e, f (f e) = f e)
    (hmkkey : ∀ k, keyedEdge k.1 k.2 (mkF k) = true)
    (hmkfix : ∀ k, f (mkF k) = mkF k)
    (ks : List (String × String)) (l : List BDEdge) :
    ∀ k ∈ ks, EdgeSetDone (keyedEdge k.1 k.2) f (foldUpd f mkF l ks) := by
  induction ks generalizing l with
  | nil => intro k hk; cases hk
  | cons k0 ks ih =>
    intro k hk
    rcases List.mem_cons.mp hk with rfl | hk
    · exact doneK_after_foldUpd f mkF hkeep hidem hmkkey hmkfix k ks _
        (updEdges_done _ f (mkF k) l (keyedEdge_of_keep k.1 k.2 f hkeep) hidem
          (hmkkey k) (hmkfix k))
    · exact ih _ k hk

theorem foldUpd_fixed (f : BDEdge → BDEdge) (mkF : String × String → BDEdge)
    (ks : List (String × String)) (l : List BDEdge)
    (hall : ∀ k ∈ ks, EdgeSetDone (keyedEdge k.1 k.2) f l) :
    foldUpd f mkF l ks = l := by
  induction ks with
  | nil => rfl
  | cons k0 ks ih =>
    have h0 : updEdges (keyedEdge k0.1 k0.2) f (mkF k0) l = l :=
      updEdges_fixed _ f (mkF k0) l (hall k0 (List.mem_cons_self _ _))
    show foldUpd f mkF (updEdges (keyedEdge k0.1 k0.2) f (mkF k0) l) ks = l
    rw [h0]
    exact ih (fun k hk => hall k (List.mem_cons_of_mem _ hk))

theorem foldUpd_idem (f : BDEdge → BDEdge) (mkF : String × String → BDEdge)
    (hkeep : ∀ e, (f e).biomarker = e.biomarker ∧ (f e).disease = e.disease)
    (hidem : ∀ e, f (f e) = f e)
    (hmkkey : ∀ k, keyedEdge k.1 k.2 (mkF k) = true)
    (hmkfix : ∀ k, f (mkF k) = mkF k)
    (ks : List (String × String)) (l : List BDEdge) :
    foldUpd f mkF (foldUpd f mkF l ks) ks = foldUpd f mkF l ks :=
  foldUpd_fixed f mkF ks _ (foldUpd_establishes f mkF hkeep hidem hmkkey hmkfix ks l)

/-! ## The two edge importers -/

/-- One CSV row of `data/biomarker_disease_edges_auto.csv` as passed to the
Cypher of `import_biomarker_disease_edges_auto.import_edges` (string cells,
with `pubmed_count` already parsed to an integer by the caller). -/
structure AutoEdgeRow where
  biomarker_name : String
  biomarker_category : String
  disease_name : String
  doid : String
  disease_category : String
  is_cancer_like : String
  specimen_type : String
  pubmed_query : String
  pubmed_count : Int
deriving DecidableEq, Repr

/-- `ON MATCH SET r.pubmed_count = $pubmed_count` (overwrite with latest). -/
def autoUpdate (row : AutoEdgeRow) : BDEdge → BDEdge :=
  fun e => { e with pubmed_count := some row.pubmed_count }

/-- `ON CREATE SET r.specimen_type, r.pubmed_query, r.pubmed_count`. -/
def autoCreate (row : AutoEdgeRow) : BDEdge :=
  ⟨row.biomarker_name, row.disease_name, some row.specimen_type,
   some row.pubmed_query, some row.pubmed_count, none, none⟩

/-- `MERGE (b:Biomarker {name: $biomarker_name}) ON CREATE SET b.category`. -/
def mergeNodeB (bs : List BiomarkerNode) (bname bcat : String) : List BiomarkerNode :=
  if bs.any (fun b => b.name == bname) then bs else bs ++ [⟨bname, none, some bcat⟩]

/-- `MERGE (d:Disease {name: $disease_name}) ON CREATE SET d.doid,
d.category, d.is_cancer_like` with the `CASE` defaulting blank
`is_cancer_like` to 0 and `toInteger` yielding null on garbage. -/
def mergeNodeD (ds : List DiseaseNode) (row : AutoEdgeRow) : List DiseaseNode :=
  if ds.any (fun d => d.name == row.disease_name) then ds
  else ds ++ [⟨row.disease_name, some row.doid, some row.disease_category,
    (if row.is_cancer_like = "" then some 0 else pyInt? row.is_cancer_like), none⟩]

/-- One row's upsert of `import_edges` in
`import_biomarker_disease_edges_auto.py`. -/
def import_edges_auto_row (st : GraphState) (row : AutoEdgeRow) : GraphState :=
  { biomarkers := mergeNodeB st.biomarkers row.biomarker_name row.biomarker_category
    diseases := mergeNodeD st.diseases row
    edges := updEdges (keyedEdge row.biomarker_name row.disease_name) (autoUpdate row)
      (autoCreate row) st.edges
    measuredIn := st.measuredIn
    detectedIn := st.detectedIn }

/-- One edge dict of `read_edges` in `import_biomarker_disease_edges.py`:
`pubmed_query` stripped-or-None, `pubmed_count` cleaned to an int,
`is_cancer_like` only kept when `"0"`/`"1"`. -/
structure PubmedEdgeRow where
  biomarker_id : String
  doid : String
  pubmed_query : Option String
  pubmed_count : Int
  is_cancer_like : Option Int
deriving DecidableEq, Repr

/-- Cypher `coalesce(a, b)`. -/
def cypherCoalesce (a b : Option Int) : Option Int :=
  match a with
  | some v => some v
  | none => b

/-- `SET r.pubmed_query = row.pubmed_query, r.pubmed_count =
row.pubmed_count, r.is_cancer_like = coalesce(row.is_cancer_like,
r.is_cancer_like)` — applied on create and on match alike. -/
def pubmedUpdate (row : PubmedEdgeRow) : BDEdge → BDEdge :=
  fun e =>
    { e with
      pubmed_query := row.pubmed_query
      pubmed_count := some row.pubmed_count
      is_cancer_like := cypherCoalesce row.is_cancer_like e.is_cancer_like }

/-- A freshly `MERGE`-created relationship (no properties) after `SET`. -/
def pubmedCreate (row : PubmedEdgeRow) (k : String × String) : BDEdge :=
  pubmedUpdate row ⟨k.1, k.2, none, none, none, none, none⟩

/-- The matched node pairs of `MATCH (b {biomarker_id: ...})` ×
`MATCH (d {doid: ...})`. -/
def pubmedPairs (st : GraphState) (row : PubmedEdgeRow) : List (String × String) :=
  ((st.biomarkers.filter (fun b => b.biomarker_id == some row.biomarker_id)).map
      (fun b => b.name)).flatMap
    (fun bn => (st.diseases.filter (fun d => d.doid == some row.doid)).map
      (fun d => (bn, d.name)))

/-- One row's upsert of `import_edges` in
`import_biomarker_disease_edges.py`: nodes are only matched, never
created; every matched pair's relationship is merged and set. -/
def import_edges_pubmed_row (st : GraphState) (row : PubmedEdgeRow) : GraphState :=
  { st with
    edges := foldUpd (pubmedUpdate row) (pubmedCreate row) st.edges (pubmedPairs st row) }

theorem pubmedUpdate_idem (row : PubmedEdgeRow) (e : BDEdge) :
    pubmedUpdate row (pubmedUpdate row e) = pubmedUpdate row e := by
  cases hr : row.is_cancer_like with
  | none => simp [pubmedUpdate, cypherCoalesce, hr]
  | some v => simp [pubmedUpdate, cypherCoalesce, hr]

theorem mergeNodeB_any (bs : List BiomarkerNode) (bname bcat : String) :
    (mergeNodeB bs bname bcat).any (fun b => b.name == bname) = true := by
  rw [mergeNodeB]
  by_cases h : bs.any (fun b => b.name == bname) = true
  · rw [if_pos h]
    exact h
  · rw [if_neg h, List.any_append]
    simp

theorem mergeNodeB_idem (bs : List BiomarkerNode) (bname bcat : String) :
    mergeNodeB (mergeNodeB bs bname bcat) bname bcat = mergeNodeB bs bname bcat := by
  conv_lhs => rw [mergeNodeB]
  rw [if_pos (mergeNodeB_any bs bname bcat)]

theorem mergeNodeD_any (ds : List DiseaseNode) (row : AutoEdgeRow) :
    (mergeNodeD ds row).any (fun d => d.name == row.disease_name) = true := by
  rw [mergeNodeD]
  by_cases h : ds.any (fun d => d.name == row.disease_name) = true
  · rw [if_pos h]
    exact h
  · rw [if_neg h, List.any_append]
    simp

theorem mergeNodeD_idem (ds : List DiseaseNode) (row : AutoEdgeRow) :
    mergeNodeD (mergeNodeD ds row) row = mergeNodeD ds row := by
  conv_lhs => rw [mergeNodeD]
  rw [if_pos (mergeNodeD_any ds row)]

theorem find?_append_of_none {α : Type} (p : α → Bool) (l₁ l₂ : List α)
    (h : l₁.find? p = none) : (l₁ ++ l₂).find? p = l₂.find? p := by
  induction l₁ with
  | nil => rfl
  | cons a l ih =>
    rw [List.find?] at h
    rcases hpa : p a with _ | _
    · rw [hpa] at h
      rw [List.cons_append, List.find?, hpa]
      exact ih h
    · rw [hpa] at h
      cases h

theorem find?_updEdges (p : BDEdge → Bool) (f : BDEdge → BDEdge) (mk : BDEdge)
    (l : List BDEdge) (hpf : ∀ e, p (f e) = p e) (hpmk : p mk = true) :
    (updEdges p f mk l).find? p =
      match l.find? p with
      | some e => some (f e)
      | none => some mk := by
  by_cases hany : l.any p = true
  · rw [updEdges, if_pos hany, List.find?_map]
    have hcong : l.find? (p ∘ fun e => if p e then f e else e) = l.find? p := by
      refine find?_congr_pred _ _ l (fun e => ?_)
      by_cases hp : p e
      · show p (if p e then f e else e) = p e
        rw [if_pos hp, hpf]
      · show p (if p e then f e else e) = p e
        rw [if_neg hp]
    rw [hcong]
    rcases hf : l.find? p with _ | e
    · rcases List.any_eq_true.mp hany with ⟨x, hx, hpx⟩
      exact absurd hpx (List.find?_eq_none.mp hf x hx)
    · have hpe := List.find?_some hf
      simp [hpe]
  · have hnone : l.find? p = none := List.find?_eq_none.mpr
      (List.any_eq_false.mp ((Bool.not_eq_true _).mp hany))
    rw [updEdges, if_neg hany, find?_append_of_none p l [mk] hnone, hnone, List.find?, hpmk]

theorem autoUpdate_keyed (row : AutoEdgeRow) (e : BDEdge) :
    keyedEdge row.biomarker_name row.disease_name (autoUpdate row e) =
      keyedEdge row.biomarker_name row.disease_name e :=
  keyedEdge_of_keep _ _ _ (fun _ => ⟨rfl, rfl⟩) e

theorem autoCreate_keyed (row : AutoEdgeRow) :
    keyedEdge row.biomarker_name row.disease_name (autoCreate row) = true := by
  simp [keyedEdge, autoCreate]

theorem pubmedCreate_keyed (row : PubmedEdgeRow) (k : String × String) :
    keyedEdge k.1 k.2 (pubmedCreate row k) = true := by
  simp [keyedEdge, pubmedCreate, pubmedUpdate]

theorem GraphState.mk_congr3 {a a' : List BiomarkerNode} {b b' : List DiseaseNode}
    {c c' : List BDEdge} (d e : List (String × String)) (ha : a = a') (hb : b = b')
    (hc : c = c') : GraphState.mk a b c d e = GraphState.mk a' b' c' d e := by
  rw [ha, hb, hc]

/-- Claim C4: re-importing an observation sets the edge's count to the
observed value (overwrite), and re-running the very same observation is a
no-op for both importers — counts never accumulate or double. -/
theorem c4_reimport_overwrites_not_accumulates :
    (∀ (st : GraphState) (row : AutoEdgeRow),
      ((import_edges_auto_row st row).edges.find?
          (keyedEdge row.biomarker_name row.disease_name)).map (fun e => e.pubmed_count) =
        some (some row.pubmed_count)) ∧
    (∀ (st : GraphState) (row : AutoEdgeRow),
      import_edges_auto_row (import_edges_auto_row st row) row =
        import_edges_auto_row st row) ∧
    (∀ (st : GraphState) (row : PubmedEdgeRow),
      import_edges_pubmed_row (import_edges_pubmed_row st row) row =
        import_edges_pubmed_row st row) := by
  refine ⟨fun st row => ?_, fun st row => ?_, fun st row => ?_⟩
  · have h := find?_updEdges (keyedEdge row.biomarker_name row.disease_name)
      (autoUpdate row) (autoCreate row) st.edges (autoUpdate_keyed row)
      (autoCreate_keyed row)
    show ((updEdges (keyedEdge row.biomarker_name row.disease_name) (autoUpdate row)
      (autoCreate row) st.edges).find?
        (keyedEdge row.biomarker_name row.disease_name)).map (fun e => e.pubmed_count) = _
    rw [h]
    rcases hf : st.edges.find? (keyedEdge row.biomarker_name row.disease_name) with _ | e
    · rfl
    · rfl
  · exact GraphState.mk_congr3 _ _
      (mergeNodeB_idem st.biomarkers row.biomarker_name row.biomarker_category)
      (mergeNodeD_idem st.diseases row)
      (updEdges_fixed _ _ _ _
        (updEdges_done _ _ _ st.edges (autoUpdate_keyed row) (fun _ => rfl)
          (autoCreate_keyed row) rfl))
  · exact congrArg
      (fun es => GraphState.mk st.biomarkers st.diseases es st.measuredIn st.detectedIn)
      (foldUpd_idem (pubmedUpdate row) (pubmedCreate row) (fun _ => ⟨rfl, rfl⟩)
        (pubmedUpdate_idem row) (pubmedCreate_keyed row)
        (fun k => pubmedUpdate_idem row _) (pubmedPairs st row) st.edges)

/-! ## Claim C3: curated strength labels survive heuristic merges -/

/-- Modelled from the spec: no importer under `src/` writes the curated
`strength` label into the graph store (the curated master CSV built by
`merge_biomarker_disease_curated.py` carries a `strength` column, but the
store importer for it is missing from `src/`); per §4.3 the curated import
upserts the association edge and sets its `strength` label. -/
def curated_set_strength (st : GraphState) (b d v : String) : GraphState :=
  { st with
    edges := updEdges (keyedEdge b d) (fun e => { e with strength := some v })
      ⟨b, d, none, none, none, none, some v⟩ st.edges }

/-- The `strength` property of the `(b, d)` association edge:
`none` when the edge does not exist, `some s` with its property value. -/
def edgeStrength (st : GraphState) (b d : String) : Option (Option String) :=
  (st.edges.find? (keyedEdge b d)).map (fun e => e.strength)

/-- Every `(b, d)` edge exists and carries strength `v`. -/
def StrengthAll (b d v : String) (l : List BDEdge) : Prop :=
  l.any (keyedEdge b d) = true ∧
  ∀ e ∈ l, keyedEdge b d e = true → e.strength = some v

theorem strengthAll_curated (st : GraphState) (b d v : String) :
    StrengthAll b d v (curated_set_strength st b d v).edges := by
  show StrengthAll b d v (updEdges (keyedEdge b d) _ _ st.edges)
  by_cases hany : st.edges.any (keyedEdge b d) = true
  · rw [updEdges, if_pos hany]
    rcases List.any_eq_true.mp hany with ⟨e, he, hpe⟩
    constructor
    · refine List.any_eq_true.mpr ⟨_, List.mem_map.mpr ⟨e, he, rfl⟩, ?_⟩
      by_cases hp : keyedEdge b d e = true
      · rw [if_pos hp]
        exact (keyedEdge_of_keep b d _ (fun _ => ⟨rfl, rfl⟩) e).trans hp
      · rw [if_neg hp]
        exact absurd hpe hp
    · intro x hx hpx
      rcases List.mem_map.mp hx with ⟨e2, he2, hge⟩
      by_cases hp2 : keyedEdge b d e2 = true
      · rw [if_pos hp2] at hge
        rw [← hge]
      · rw [if_neg hp2] at hge
        rw [← hge] at hpx
        exact absurd hpx hp2
  · rw [updEdges, if_neg hany]
    have hnone := List.any_eq_false.mp ((Bool.not_eq_true _).mp hany)
    constructor
    · exact List.any_eq_true.mpr ⟨_, List.mem_append_right _ (List.mem_singleton.mpr rfl),
        by simp [keyedEdge]⟩
    · intro x hx hpx
      rcases List.mem_append.mp hx with hx | hx
      · exact absurd hpx (hnone x hx)
      · rw [List.mem_singleton.mp hx]

theorem updEdges_strength_preserved (b d v : String) (k2 : String × String)
    (f : BDEdge → BDEdge) (mk : BDEdge) (l : List BDEdge)
    (hkeep : ∀ e, (f e).biomarker = e.biomarker ∧ (f e).disease = e.disease)
    (hstr : ∀ e, (f e).strength = e.strength)
    (hmkk : keyedEdge k2.1 k2.2 mk = true)
    (hall : StrengthAll b d v l) :
    StrengthAll b d v (updEdges (keyedEdge k2.1 k2.2) f mk l) := by
  obtain ⟨hany, hval⟩ := hall
  by_cases hany2 : l.any (keyedEdge k2.1 k2.2) = true
  · rw [updEdges, if_pos hany2]
    rcases List.any_eq_true.mp hany with ⟨e, he, hpe⟩
    constructor
    · refine List.any_eq_true.mpr ⟨_, List.mem_map.mpr ⟨e, he, rfl⟩, ?_⟩
      by_cases hp : keyedEdge k2.1 k2.2 e = true
      · rw [if_pos hp]
        exact (keyedEdge_of_keep b d f hkeep e).trans hpe
      · rw [if_neg hp]
        exact hpe
    · intro x hx hpx
      rcases List.mem_map.mp hx with ⟨e2, he2, hge⟩
      by_cases hp2 : keyedEdge k2.1 k2.2 e2 = true
      · rw [if_pos hp2] at hge
        rw [← hge] at hpx ⊢
        rw [keyedEdge_of_keep b d f hkeep e2] at hpx
        rw [hstr e2]
        exact hval e2 he2 hpx
      · rw [if_neg hp2] at hge
        rw [← hge] at hpx ⊢
        exact hval e2 he2 hpx
  · rw [updEdges, if_neg hany2]
    constructor
    · rcases List.any_eq_true.mp hany with ⟨e, he, hpe⟩
      exact List.any_eq_true.mpr ⟨e, List.mem_append_left _ he, hpe⟩
    · intro x hx hpx
      rcases List.mem_append.mp hx with hx | hx
      · exact hval x hx hpx
      · rw [List.mem_singleton.mp hx] at hpx
        rw [keyedEdge, Bool.and_eq_true] at hpx hmkk
        have hb : b = k2.1 := (eq_of_beq hpx.1).symm.trans (eq_of_beq hmkk.1)
        have hd : d = k2.2 := (eq_of_beq hpx.2).symm.trans (eq_of_beq hmkk.2)
        rw [hb, hd] at hany
        rw [hany] at hany2
        exact absurd rfl hany2

theorem foldUpd_strength_preserved (b d v : String) (f : BDEdge → BDEdge)
    (mkF : String × String → BDEdge) (ks : List (String × String)) (l : List BDEdge)
    (hkeep : ∀ e, (f e).biomarker = e.biomarker ∧ (f e).disease = e.disease)
    (hstr : ∀ e, (f e).strength = e.strength)
    (hmkk : ∀ k, keyedEdge k.1 k.2 (mkF k) = true)
    (hall : StrengthAll b d v l) : StrengthAll b d v (foldUpd f mkF l ks) := by
  induction ks generalizing l with
  | nil => exact hall
  | cons k0 ks ih =>
    exact ih _ (updEdges_strength_preserved b d v k0 f (mkF k0) l hkeep hstr
      (hmkk k0) hall)

theorem edgeStrength_of_strengthAll (st : GraphState) (b d v : String)
    (hall : StrengthAll b d v st.edges) : edgeStrength st b d = some (some v) := by
  obtain ⟨hany, hval⟩ := hall
  rcases hf : st.edges.find? (keyedEdge b d) with _ | e
  · rcases List.any_eq_true.mp hany with ⟨x, hx, hpx⟩
    exact absurd hpx (List.find?_eq_none.mp hf x hx)
  · rw [edgeStrength, hf]
    show some e.strength = some (some v)
    rw [hval e (List.mem_of_find?_eq_some hf) (List.find?_some hf)]

/-- Claim C3: once a curated import has set `strength = "strong"` on the
`(b, d)` association edge, a subsequent heuristic merge — an auto-importer
row or a pubmed-importer row, for the same or any other edge — leaves the
final strength `"strong"`: neither heuristic importer writes the
`strength` property. -/
theorem c3_curated_strength_never_overwritten (st : GraphState) (b d : String)
    (arow : AutoEdgeRow) (prow : PubmedEdgeRow) :
    edgeStrength (import_edges_auto_row (curated_set_strength st b d "strong") arow)
      b d = some (some "strong") ∧
    edgeStrength (import_edges_pubmed_row (curated_set_strength st b d "strong") prow)
      b d = some (some "strong") := by
  have h0 := strengthAll_curated st b d "strong"
  constructor
  · refine edgeStrength_of_strengthAll _ b d "strong" ?_
    exact updEdges_strength_preserved b d "strong"
      (arow.biomarker_name, arow.disease_name) (autoUpdate arow) (autoCreate arow) _
      (fun _ => ⟨rfl, rfl⟩) (fun _ => rfl) (autoCreate_keyed arow) h0
  · refine edgeStrength_of_strengthAll _ b d "strong" ?_
    exact foldUpd_strength_preserved b d "strong" (pubmedUpdate prow)
      (pubmedCreate prow) _ _ (fun _ => ⟨rfl, rfl⟩) (fun _ => rfl)
      (pubmedCreate_keyed prow) h0
